import Mathlib

/-!
# Verification development for `task` (jakedsouza/rabbit)

Shallow embedding of `task/task.go`, `task/step.go` and `task/paral_step.go`.

Conventions of the embedding.

* A Go `error` / `context.Context` interface value that may be `nil` is an `Option`.
* The local slices built with `append` (`errs`, `stepErrors`, `ctxs`) are lists; the
  nil slice is the empty list.
* Goroutines of `ParalStep.Run` are joined before the completion check, so a run is
  described by the children's results in arrival order and by whether the watcher
  goroutine had stored `cancelErr` when the check was made.
* Calls to collaborators (event bus, user callbacks, `Rollback`) are recorded in a trace.
-/

namespace task

/-! ## Data model -/

/-- State is the state of a task or a step (`task.go`, type `State`). -/
inductive State
  | none
  | created
  | processing
  | completed
  | failed
  | canceled
  | rollingback
  deriving DecidableEq, Repr

/-- StepInfo has the information of a step (`step.go`). -/
structure StepInfo where
  State : State
  Name : String
  deriving DecidableEq, Repr

/-- NewStepInfo of `step.go`. -/
def NewStepInfo (name : String) : StepInfo :=
  { Name := name, State := State.none }

/-- A non-nil Go `error` value. `ext` is an error made outside this package (for
instance by a child step), identified by a tag; `errorf` is the value built by
`fmt.Errorf`; `errorsNew` the value built by `errors.New`. -/
inductive GoError
  | ext (tag : Nat) (msg : String)
  | errorf (msg : String)
  | errorsNew (msg : String)
  deriving DecidableEq, Repr

/-- The method `Error()` of an error value. -/
def GoError.Error : GoError → String
  | .ext _ m => m
  | .errorf m => m
  | .errorsNew m => m

/-- A non-nil `context.Context`: a context made by the caller, or the cancellable
derivation `context.WithCancel(parent)`. -/
inductive Context
  | base (key : Nat)
  | withCancel (parent : Context)
  deriving DecidableEq, Repr

/-- The result of `fmt.Errorf("%v.%v", a, b)` for two strings. -/
def errorfDot (a b : String) : GoError :=
  GoError.errorf (a ++ "." ++ b)

/-- One iteration of the loop of the default error handler (`task.go` lines 165-174):
`err` is the accumulator, `e` the element. -/
def errorStep (err : Option GoError) (e : Option GoError) : Option GoError :=
  match e with
  | Option.none => err
  | Option.some x =>
    match err with
    | Option.none => Option.some x
    | Option.some acc => Option.some (errorfDot acc.Error x.Error)

/-- The closure returned by `NewErrorHandler(nil)`. -/
def defaultErrorHandler (errs : List (Option GoError)) : Option GoError :=
  errs.foldl errorStep Option.none

/-- NewErrorHandler of `task.go`: the given function, or the default handler. -/
def NewErrorHandler (errFn : Option (List (Option GoError) → Option GoError)) :
    List (Option GoError) → Option GoError :=
  match errFn with
  | Option.none => defaultErrorHandler
  | Option.some f => f

/-- The closure returned by `NewContextHandler(nil)`: nil on the nil slice, the first
element otherwise. -/
def defaultContextHandler (ctxs : List (Option Context)) : Option Context :=
  match ctxs with
  | [] => Option.none
  | c :: _ => c

/-- NewContextHandler of `task.go`. -/
def NewContextHandler (ctxfn : Option (List (Option Context) → Option Context)) :
    List (Option Context) → Option Context :=
  match ctxfn with
  | Option.none => defaultContextHandler
  | Option.some f => f

/-- The messages of `errs` joined with `"."` in list order. -/
def joinedMessage (errs : List GoError) : String :=
  String.intercalate "." (errs.map GoError.Error)

/-! ## Observable calls -/

/-- Calls made on collaborators during a run, in program order. -/
inductive Event
  | subscribe
  | stepSuccessFn (ctx : Option Context)
  | stepFailFn (ctx : Option Context) (err : Option GoError)
  | stepRollback (ctx : Option Context)
  | taskSuccessFn (tag : Nat)
  | taskFailFn (tag : Nat) (err : Option GoError)
  | busClose
  deriving DecidableEq, Repr

/-! ## GenericStep and ParalStep (`step.go`, `paral_step.go`) -/

/-- GenericStep of `step.go`, with the fields that `ParalStep.Run` reads. The children
`Steps` are external `Step` values; a run sees them through their results. A user
callback receives the step and may set its state: it is given as its effect on the
state. -/
structure GenericStep where
  info : StepInfo
  contextHandler : List (Option Context) → Option Context
  errorHandler : List (Option GoError) → Option GoError
  successFn : Option (Option Context → State → State)
  failFn : Option (Option Context → Option GoError → State → State)

/-- GenericStep.Run: returns the input context and no error, changes nothing. -/
def GenericStep.Run (_s : GenericStep) (reqCtx : Option Context) :
    Option Context × Option GoError :=
  (reqCtx, Option.none)

/-- GenericStep.Rollback: returns the input context and no error. -/
def GenericStep.Rollback (_s : GenericStep) (reqCtx : Option Context) :
    Option Context × Option GoError :=
  (reqCtx, Option.none)

/-- GenericStep.GetInfo. -/
def GenericStep.GetInfo (s : GenericStep) : StepInfo :=
  s.info

/-- GenericStep.SetState. -/
def GenericStep.SetState (s : GenericStep) (state : State) : GenericStep :=
  { s with info := { s.info with State := state } }

/-- ParalStep embeds GenericStep and adds no field. -/
abbrev ParalStep := GenericStep

/-- NewParalStep: the handlers default through `NewContextHandler` and
`NewErrorHandler`; the callbacks start unset. -/
def NewParalStep (stepInfo : StepInfo)
    (contextfn : Option (List (Option Context) → Option Context))
    (errorfn : Option (List (Option GoError) → Option GoError)) : ParalStep :=
  { info := stepInfo
    contextHandler := NewContextHandler contextfn
    errorHandler := NewErrorHandler errorfn
    successFn := Option.none
    failFn := Option.none }

/-- GenericStep.SetSuccessFn. -/
def GenericStep.SetSuccessFn (s : GenericStep)
    (fn : Option (Option Context → State → State)) : GenericStep :=
  { s with successFn := fn }

/-- GenericStep.SetFailFn. -/
def GenericStep.SetFailFn (s : GenericStep)
    (fn : Option (Option Context → Option GoError → State → State)) : GenericStep :=
  { s with failFn := fn }

/-- ParalStep.Success: sets `StateCompleted` when no callback is set, calls the
callback otherwise. Returns the step afterwards and the calls made. -/
def ParalStep.Success (s : ParalStep) (reqCtx : Option Context) : ParalStep × List Event :=
  match s.successFn with
  | Option.none => (s.SetState State.completed, [])
  | Option.some fn => (s.SetState (fn reqCtx s.info.State), [Event.stepSuccessFn reqCtx])

/-- ParalStep.Fail: sets `StateFailed` when no callback is set, calls the callback
otherwise. -/
def ParalStep.Fail (s : ParalStep) (reqCtx : Option Context) (err : Option GoError) :
    ParalStep × List Event :=
  match s.failFn with
  | Option.none => (s.SetState State.failed, [])
  | Option.some fn => (s.SetState (fn reqCtx err s.info.State), [Event.stepFailFn reqCtx err])

/-- What one child goroutine got from `step.Run(ctx, bus)`. -/
structure ChildResult where
  ctx : Option Context
  err : Option GoError
  deriving DecidableEq, Repr

/-- The values sent on `errc`, in arrival order: the non-nil errors. -/
def sentErrors (results : List ChildResult) : List GoError :=
  results.filterMap (fun r => r.err)

/-- The values sent on `ctxc`, in arrival order: the contexts of the children whose
error was nil. -/
def sentContexts (results : List ChildResult) : List (Option Context) :=
  (results.filter (fun r => r.err.isNone)).map (fun r => r.ctx)

/-- The context aggregator goroutine: `resultCtx` once `ctxc` is closed. -/
def aggregateContexts (s : ParalStep) (reqCtx : Context) (results : List ChildResult) :
    Option Context :=
  let received := sentContexts results
  if received.isEmpty then Option.none
  else s.contextHandler (Option.some reqCtx :: received)

/-- The error aggregator goroutine: `resultErr` once `errc` is closed. -/
def aggregateErrors (s : ParalStep) (results : List ChildResult) : Option GoError :=
  let stepErrors := (sentErrors results).map Option.some
  if stepErrors.isEmpty then Option.none
  else s.errorHandler stepErrors

/-- The error stored by the watcher goroutine: `errors.New("step " + s.Name + " canceled")`. -/
def cancelError (s : ParalStep) : GoError :=
  GoError.errorsNew ("step " ++ s.info.Name ++ " canceled")

/-- The slice holding `e` when it is non-nil, the nil slice otherwise
(`if e != nil { errs = append(errs, e) }`). -/
def appendIfSet (e : Option GoError) : List (Option GoError) :=
  match e with
  | Option.none => []
  | Option.some x => [Option.some x]

/-- What `ParalStep.Run` returns, the step afterwards and the calls it made. -/
structure RunResult where
  ctx : Option Context
  err : Option GoError
  step : ParalStep
  trace : List Event

/-- ParalStep.Run of `paral_step.go`. `reqCtx` is non-nil (the watcher goroutine calls
`reqCtx.Done()`); `results` are the children's results in arrival order;
`cancelRecorded` says whether `cancelErr` was set when line 137 is reached. The result
is `none` when the call does not return: line 158 calls `runError.Error()`, which
fails on a nil `runError`. -/
def ParalStep.Run (s : ParalStep) (reqCtx : Context) (results : List ChildResult)
    (cancelRecorded : Bool) : Option RunResult :=
  let s1 := s.SetState State.processing
  let resultCtx := aggregateContexts s1 reqCtx results
  let resultErr := aggregateErrors s1 results
  let cancelErr : Option GoError :=
    if cancelRecorded then Option.some (cancelError s1) else Option.none
  match cancelErr with
  | Option.some ce =>
    let errs := appendIfSet resultErr ++ [Option.some ce]
    let rollbackError := (GenericStep.Rollback s1 (Option.some reqCtx)).2
    let errs := errs ++ appendIfSet rollbackError
    let runError := s1.errorHandler errs
    Option.some
      { ctx := Option.some reqCtx, err := runError, step := s1,
        trace := [Event.subscribe, Event.stepRollback (Option.some reqCtx)] }
  | Option.none =>
    match resultErr with
    | Option.some re =>
      let errs := [Option.some re]
      let runError := s1.errorHandler errs
      let after := ParalStep.Fail s1 (Option.some reqCtx) runError
      match runError with
      | Option.none => Option.none
      | Option.some e =>
        Option.some
          { ctx := Option.some reqCtx, err := Option.some e, step := after.1,
            trace := Event.subscribe :: after.2 }
    | Option.none =>
      match resultCtx with
      | Option.some rc =>
        let after := ParalStep.Success s1 (Option.some rc)
        Option.some
          { ctx := Option.some rc, err := Option.none, step := after.1,
            trace := Event.subscribe :: after.2 }
      | Option.none =>
        Option.some
          { ctx := Option.some reqCtx, err := Option.none, step := s1,
            trace := [Event.subscribe] }

/-! ## Task (`task.go`) -/

/-- A user function of type `func(*Task)`: a tag naming it, and what it does to the
state of the root step, which it reaches through the exported field `TaskStep`. -/
structure TaskSuccessFn where
  tag : Nat
  effect : State → State

/-- A user function of type `func(*Task, error)`: a tag naming it, and what it does to
the state of the root step, given the error it is called with. -/
structure TaskFailFn where
  tag : Nat
  effect : Option GoError → State → State

/-- Task of `task.go`, with the fields `Run` and `CheckStatus` use. `TaskStep` is the
root step as seen through `GetInfo()`; a callback is absent when the field is nil. -/
structure Task where
  Name : String
  TaskStep : StepInfo
  ctx : Option Context
  errorHandler : List (Option GoError) → Option GoError
  successFn : Option TaskSuccessFn
  failFn : Option TaskFailFn

/-- TaskOpts of `task.go`, with the options `Run` depends on. -/
structure TaskOpts where
  Ctx : Option Context
  SuccessFn : Option TaskSuccessFn
  FailFn : Option TaskFailFn
  ErrorFn : Option (List (Option GoError) → Option GoError)

/-- NewTask of `task.go`: the error handler defaults through `NewErrorHandler`; `Name`
is left at its zero value. -/
def NewTask (taskOpts : TaskOpts) (step : StepInfo) : Task :=
  { Name := ""
    TaskStep := step
    ctx := taskOpts.Ctx
    successFn := taskOpts.SuccessFn
    failFn := taskOpts.FailFn
    errorHandler := NewErrorHandler taskOpts.ErrorFn }

/-- What `t.TaskStep.Run(t.ctx, t.eventBus)` returned, with the root step's info when it
returned. -/
structure StepOutcome where
  ctx : Option Context
  err : Option GoError
  info : StepInfo
  deriving DecidableEq, Repr

/-- The outcome of a root step that is a `GenericStep`. -/
def GenericStep.outcome (s : GenericStep) (reqCtx : Context) : Option StepOutcome :=
  Option.some
    { ctx := (s.Run (Option.some reqCtx)).1, err := (s.Run (Option.some reqCtx)).2,
      info := s.GetInfo }

/-- The outcome of a root step that is a `ParalStep`. -/
def ParalStep.outcome (s : ParalStep) (results : List ChildResult) (cancelRecorded : Bool)
    (reqCtx : Context) : Option StepOutcome :=
  (ParalStep.Run s reqCtx results cancelRecorded).map
    (fun r => { ctx := r.ctx, err := r.err, info := r.step.GetInfo })

/-- Task.Rollback: returns nil. -/
def Task.Rollback (_t : Task) : Option GoError :=
  Option.none

/-- The task after a callback has set the state of its root step. -/
def Task.withStepState (t : Task) (st : State) : Task :=
  { t with TaskStep := { t.TaskStep with State := st } }

/-- Task.Success: the callback when set, then `eventBus.Close()`. Returns the task
afterwards and the calls made. -/
def Task.Success (t : Task) : Task × List Event :=
  match t.successFn with
  | Option.none => (t, [Event.busClose])
  | Option.some fn =>
    (t.withStepState (fn.effect t.TaskStep.State),
      [Event.taskSuccessFn fn.tag, Event.busClose])

/-- Task.Fail: the callback when set, then `eventBus.Close()`. Returns the task
afterwards and the calls made. -/
def Task.Fail (t : Task) (err : Option GoError) : Task × List Event :=
  match t.failFn with
  | Option.none => (t, [Event.busClose])
  | Option.some fn =>
    (t.withStepState (fn.effect err t.TaskStep.State),
      [Event.taskFailFn fn.tag err, Event.busClose])

/-- What `Task.Run` returns, the task afterwards and the calls it made. -/
structure TaskResult where
  err : Option GoError
  task : Task
  trace : List Event

/-- Task.Run of `task.go`. `root` is the behaviour of `TaskStep.Run` on the derived
context (`none` when that call does not return); `ctxDone` says whether `t.ctx.Done()`
is ready when the root step returns. The result is `none` when the call does not
return: `context.WithCancel` fails on a nil `t.ctx`. -/
def Task.Run (t : Task) (root : Context → Option StepOutcome) (ctxDone : Bool) :
    Option TaskResult :=
  match t.ctx with
  | Option.none => Option.none
  | Option.some parent =>
    let reqCtx := Context.withCancel parent
    let t1 := { t with ctx := Option.some reqCtx }
    match root reqCtx with
    | Option.none => Option.none
    | Option.some o =>
      let t2 := { t1 with TaskStep := o.info }
      let after : Task × Option GoError :=
        if ctxDone then
          let rollbackErr := t2.Rollback
          (t2, t2.errorHandler [o.err, rollbackErr])
        else
          ({ t2 with ctx := o.ctx }, o.err)
      let runErr := after.2
      let done : Task × List Event :=
        match runErr with
        | Option.none => after.1.Success
        | Option.some e => after.1.Fail (Option.some e)
      Option.some { err := runErr, task := done.1, trace := done.2 }

/-- The value of `runErr` when the goroutine of `Task.Run` is done: the error `Task.Run`
returns. -/
def Task.runErr (t : Task) (o : StepOutcome) (ctxDone : Bool) : Option GoError :=
  if ctxDone then t.errorHandler [o.err, t.Rollback] else o.err

/-- Task.CheckStatus: `StateCreated` when the root step's state is `StateNone`, the root
step's state otherwise. -/
def Task.CheckStatus (t : Task) : State :=
  let info := t.TaskStep
  if info.State = State.none then State.created else info.State

/-! ## Step trees and `FindSteps` (`step.go`) -/

/-- Modelled from the spec: the type `SeqStep`, named by the type switch of `FindSteps`,
is declared outside the given source files; the spec describes it as the sequential
composite step, built on `GenericStep` like `ParalStep`. `StepKind` is the dynamic type
of a `Step` value as far as that type switch can tell: `seq` is `*SeqStep`, every other
kind takes the default case. -/
inductive StepKind
  | seq
  | paral
  | generic
  | other
  deriving DecidableEq, Repr

/-- A finite step tree: dynamic type, `GetInfo()`, and the `Steps` slice (`none` is the
nil slice). -/
inductive Step
  | mk (kind : StepKind) (info : StepInfo) (steps : Option (List Step))

/-- The dynamic type of a step. -/
def Step.kind : Step → StepKind
  | .mk k _ _ => k

/-- The method `GetInfo()`. -/
def Step.GetInfo : Step → StepInfo
  | .mk _ i _ => i

/-- The field `Steps`. -/
def Step.Steps : Step → Option (List Step)
  | .mk _ _ l => l

/-- The children of a step, as a list (empty for the nil slice). -/
def Step.children (s : Step) : List Step :=
  s.Steps.getD []

/-- StepPredicate of `step.go`. -/
abbrev StepPredicate := Step → Bool

mutual
/-- FindSteps of `step.go`. -/
def FindSteps (step : Step) (pred : StepPredicate) (deepest : Bool) : List Step :=
  match step with
  | .mk kind info steps =>
    if !pred (.mk kind info steps) then []
    else
      match kind with
      | StepKind.seq =>
        match steps with
        | Option.none => [.mk kind info Option.none]
        | Option.some l => FindSteps.loop (.mk kind info (Option.some l)) pred deepest l []
      | _ => [.mk kind info steps]
/-- The `for _, thisStep := range s.Steps` loop of `FindSteps` and the code after it:
`rest` is what is left of the slice, `res` the result so far. -/
def FindSteps.loop (step : Step) (pred : StepPredicate) (deepest : Bool)
    (rest : List Step) (res : List Step) : List Step :=
  match rest with
  | [] => if deepest then res ++ [step] else res
  | thisStep :: more =>
    if pred thisStep then
      if deepest then FindSteps thisStep pred true
      else FindSteps.loop step pred deepest more (res ++ [thisStep])
    else FindSteps.loop step pred deepest more res
end

/-- The predicate of `GetActiveSteps`: state processing or rolling back. -/
def isActive : StepPredicate :=
  fun s => s.GetInfo.State == State.processing || s.GetInfo.State == State.rollingback

/-- GetActiveSteps of `step.go`. -/
def GetActiveSteps (step : Step) (deepest : Bool) : List Step :=
  FindSteps step isActive deepest

/-- The step `r` is `s` itself or one of its descendants. -/
inductive Step.Within : Step → Step → Prop
  | self (s : Step) : Step.Within s s
  | child (r c s : Step) : c ∈ s.children → Step.Within r c → Step.Within r s

/-- The descent the claim describes: from a `SeqStep`, go into the first child that
satisfies `pred` and continue from there; stop at a step that is not a `SeqStep` or
has no child satisfying `pred`. `DescendsTo pred s r` says the descent from `s` stops
at `r`. -/
inductive DescendsTo (pred : StepPredicate) : Step → Step → Prop
  | stop (s : Step) :
      (s.kind ≠ StepKind.seq ∨ s.children.find? pred = Option.none) → DescendsTo pred s s
  | down (s c r : Step) :
      s.kind = StepKind.seq → s.children.find? pred = Option.some c →
      DescendsTo pred c r → DescendsTo pred s r

/-! ## Concrete inputs -/

/-- A caller's context. -/
def ctx0 : Context := Context.base 0

/-- A context returned by a child. -/
def ctx1 : Context := Context.base 1

/-- An error returned by a child. -/
def errDisk : GoError := GoError.ext 1 "disk full"

/-- Another error returned by a child. -/
def errTimeout : GoError := GoError.ext 2 "timeout"

/-- A parallel step named "deploy" with the default handlers and no callback. -/
def stepDeploy : ParalStep :=
  NewParalStep (NewStepInfo "deploy") Option.none Option.none

/-- Three children: one succeeds, then two fail. -/
def resultsMixed : List ChildResult :=
  [{ ctx := Option.some ctx1, err := Option.none },
   { ctx := Option.none, err := Option.some errDisk },
   { ctx := Option.none, err := Option.some errTimeout }]

/-- Two children succeed, one fails. -/
def resultsOneFails : List ChildResult :=
  [{ ctx := Option.some ctx1, err := Option.none },
   { ctx := Option.none, err := Option.some errDisk },
   { ctx := Option.some ctx0, err := Option.none }]

/-- Three children succeed, each with a context of its own. -/
def resultsAllSucceed : List ChildResult :=
  [{ ctx := Option.some (Context.base 1), err := Option.none },
   { ctx := Option.some (Context.base 2), err := Option.none },
   { ctx := Option.some (Context.base 3), err := Option.none }]

/-- The step "deploy" with a success and a fail callback that leave the state as it is. -/
def stepDeployObserved : ParalStep :=
  (stepDeploy.SetSuccessFn (Option.some (fun _ st => st))).SetFailFn
    (Option.some (fun _ _ st => st))

/-- The step "deploy" with an error handler that drops every error. -/
def stepDeployLenient : ParalStep :=
  NewParalStep (NewStepInfo "deploy") Option.none (Option.some (fun _ => Option.none))

/-- A generic step named "noop" in state None; `GenericStep.Run` uses none of its
handlers. -/
def stepNoop : GenericStep :=
  { info := NewStepInfo "noop"
    contextHandler := NewContextHandler Option.none
    errorHandler := NewErrorHandler Option.none
    successFn := Option.none
    failFn := Option.none }

/-- A task on context `ctx0` with the default error handler and both callbacks set to
functions that leave the root step alone, whose root step is named `name`. -/
def taskFor (name : String) : Task :=
  NewTask
    { Ctx := Option.some ctx0
      SuccessFn := Option.some { tag := 1, effect := fun st => st }
      FailFn := Option.some { tag := 2, effect := fun _ st => st }
      ErrorFn := Option.none } (NewStepInfo name)

/-- A task like `taskFor name` whose fail callback puts the root step back in state
None. -/
def taskResetting (name : String) : Task :=
  NewTask
    { Ctx := Option.some ctx0
      SuccessFn := Option.none
      FailFn := Option.some { tag := 2, effect := fun _ _ => State.none }
      ErrorFn := Option.none } (NewStepInfo name)

/-- A task like `taskFor name` with an error handler that drops every error. -/
def taskLenient (name : String) : Task :=
  NewTask
    { Ctx := Option.some ctx0
      SuccessFn := Option.none
      FailFn := Option.none
      ErrorFn := Option.some (fun _ => Option.none) } (NewStepInfo name)

/-- The step "deploy" with a context handler that returns nil. -/
def stepDeployNoContext : ParalStep :=
  NewParalStep (NewStepInfo "deploy") (Option.some (fun _ => Option.none)) Option.none

/-- The step "deploy" with an error handler that returns the number of entries it is
given as the message of an error. -/
def stepDeployCounting : ParalStep :=
  NewParalStep (NewStepInfo "deploy") Option.none
    (Option.some (fun errs => Option.some (GoError.ext 0 (toString errs.length))))

/-- Two children, both failing. -/
def resultsAllFail : List ChildResult :=
  [{ ctx := Option.none, err := Option.some errDisk },
   { ctx := Option.none, err := Option.some errTimeout }]

/-- The outcome of the step "deploy" on the task's derived context when two children
succeed and one fails with "disk full", no cancellation being recorded. -/
def outcomeOneFails : StepOutcome :=
  { ctx := Option.some (Context.withCancel ctx0), err := Option.some errDisk,
    info := { State := State.failed, Name := "deploy" } }

/-- The outcome of the step "deploy" on the task's derived context when its three
children succeed and the cancellation is recorded. -/
def outcomeCanceled : StepOutcome :=
  { ctx := Option.some (Context.withCancel ctx0),
    err := Option.some (GoError.errorsNew "step deploy canceled"),
    info := { State := State.processing, Name := "deploy" } }

/-- A leaf step of a user type with the given state and name. -/
def leafStep (st : State) (name : String) : Step :=
  Step.mk StepKind.other { State := st, Name := name } Option.none

/-- A sequential step that is processing, whose second child is a processing sequential
step with a completed and a processing leaf. -/
def treeNested : Step :=
  Step.mk StepKind.seq { State := State.processing, Name := "root" }
    (Option.some
      [leafStep State.completed "a",
       Step.mk StepKind.seq { State := State.processing, Name := "b" }
         (Option.some [leafStep State.completed "b1", leafStep State.processing "b2"]),
       leafStep State.none "c"])

/-! ## The default error combiner -/

/-- The loop of the default handler, started with a non-nil accumulator and fed
non-nil errors, folds `errorfDot` over the messages. -/
theorem foldl_errorStep_some (l : List GoError) (acc : GoError) :
    (l.map Option.some).foldl errorStep (Option.some acc)
      = Option.some (l.foldl (fun a e => errorfDot a.Error e.Error) acc) := by
  induction l generalizing acc with
  | nil => rfl
  | cons e l ih =>
    simp only [List.map_cons, List.foldl_cons, errorStep]
    exact ih (errorfDot acc.Error e.Error)

/-- Folding `errorfDot` from `acc` over a non-empty list gives the `fmt.Errorf` value
whose message is the left-to-right join started at the message of `acc`. -/
theorem foldl_errorfDot_cons (l : List GoError) (acc e : GoError) :
    (e :: l).foldl (fun a x => errorfDot a.Error x.Error) acc
      = GoError.errorf (String.intercalate.go acc.Error "." ((e :: l).map GoError.Error)) := by
  induction l generalizing acc e with
  | nil => rfl
  | cons x l ih =>
    rw [List.foldl_cons, ih (errorfDot acc.Error e.Error) x]
    rfl

/-- On two or more non-nil errors the default handler returns the `fmt.Errorf` value
carrying the joined message. -/
theorem defaultErrorHandler_many (e1 e2 : GoError) (rest : List GoError) :
    defaultErrorHandler ((e1 :: e2 :: rest).map Option.some)
      = Option.some (GoError.errorf (joinedMessage (e1 :: e2 :: rest))) := by
  have h : defaultErrorHandler ((e1 :: e2 :: rest).map Option.some)
      = ((e2 :: rest).map Option.some).foldl errorStep (Option.some e1) := rfl
  rw [h, foldl_errorStep_some, foldl_errorfDot_cons]
  rfl

/-- On a non-empty list of non-nil errors the default handler returns a non-nil error
whose message is the joined message. -/
theorem defaultErrorHandler_message (e : GoError) (rest : List GoError) :
    ∃ r, defaultErrorHandler ((e :: rest).map Option.some) = Option.some r
      ∧ r.Error = joinedMessage (e :: rest) := by
  cases rest with
  | nil => exact ⟨e, rfl, rfl⟩
  | cons e2 rest => exact ⟨_, defaultErrorHandler_many e e2 rest, rfl⟩

/-- C1. The default error combiner `NewErrorHandler(nil)` on a list of non-nil errors:
it returns nil on the empty list; it returns the element itself on a one-element list;
on two or more elements it returns an error whose message is the elements' messages
joined with "." in list order, which for `[e1, e2]` is
`e1.Error() + "." + e2.Error()`. -/
theorem NewErrorHandler_default_reference :
    NewErrorHandler Option.none [] = Option.none
    ∧ (∀ e : GoError, NewErrorHandler Option.none [Option.some e] = Option.some e)
    ∧ (∀ (e1 e2 : GoError) (rest : List GoError),
        ∃ r, NewErrorHandler Option.none ((e1 :: e2 :: rest).map Option.some) = Option.some r
          ∧ r.Error = joinedMessage (e1 :: e2 :: rest))
    ∧ (∀ e1 e2 : GoError, joinedMessage [e1, e2] = e1.Error ++ "." ++ e2.Error) := by
  refine ⟨rfl, fun _ => rfl, ?_, fun _ _ => rfl⟩
  intro e1 e2 rest
  exact ⟨_, defaultErrorHandler_many e1 e2 rest, rfl⟩

/-! ## ParalStep.Run -/

/-- Setting the state does not change what the error aggregator computes. -/
theorem aggregateErrors_SetState (s : ParalStep) (st : State) (results : List ChildResult) :
    aggregateErrors (s.SetState st) results = aggregateErrors s results := rfl

/-- Without a child error the error aggregator leaves `resultErr` nil. -/
theorem aggregateErrors_nil (s : ParalStep) (results : List ChildResult)
    (h : sentErrors results = []) : aggregateErrors s results = Option.none := by
  simp [aggregateErrors, h]

/-- With child errors the error aggregator applies the error handler to them. -/
theorem aggregateErrors_cons (s : ParalStep) (results : List ChildResult)
    (e : GoError) (rest : List GoError) (h : sentErrors results = e :: rest) :
    aggregateErrors s results = s.errorHandler ((e :: rest).map Option.some) := by
  simp [aggregateErrors, h]

/-- When every child returns a nil error, nothing is sent on `errc`. -/
theorem sentErrors_of_all_nil (results : List ChildResult)
    (hall : ∀ x ∈ results, x.err = Option.none) : sentErrors results = [] := by
  induction results with
  | nil => rfl
  | cons x xs ih =>
    have hx : x.err = Option.none := hall x (List.mem_cons_self x xs)
    have hxs : sentErrors xs = [] := ih (fun y hy => hall y (List.mem_cons_of_mem x hy))
    simp only [sentErrors, List.filterMap_cons, hx]
    exact hxs

/-- When every child returns a nil error, every child's context is sent on `ctxc`. -/
theorem sentContexts_of_all_nil (results : List ChildResult)
    (hall : ∀ x ∈ results, x.err = Option.none) :
    sentContexts results = results.map (fun x => x.ctx) := by
  induction results with
  | nil => rfl
  | cons x xs ih =>
    have hx : x.err = Option.none := hall x (List.mem_cons_self x xs)
    have hxs := ih (fun y hy => hall y (List.mem_cons_of_mem x hy))
    simp only [sentContexts] at hxs ⊢
    simp [List.filter_cons, hx, hxs]

/-- When some child returns an error, something is sent on `errc`. -/
theorem sentErrors_ne_nil (results : List ChildResult)
    (hsome : ∃ x ∈ results, x.err ≠ Option.none) : sentErrors results ≠ [] := by
  obtain ⟨x, hx, hne⟩ := hsome
  intro hnil
  cases he : x.err with
  | none => exact hne he
  | some e =>
    have hmem : e ∈ sentErrors results := by
      simp only [sentErrors, List.mem_filterMap]
      exact ⟨x, hx, he⟩
    rw [hnil] at hmem
    exact List.not_mem_nil e hmem

/-- The plain-failure branch: no cancellation recorded, a non-nil aggregated error `a`,
and a non-nil combined error `b`. -/
theorem ParalStep_Run_fail_branch (s : ParalStep) (reqCtx : Context)
    (results : List ChildResult) (a b : GoError)
    (hagg : aggregateErrors (s.SetState State.processing) results = Option.some a)
    (hrun : (s.SetState State.processing).errorHandler [Option.some a] = Option.some b) :
    ParalStep.Run s reqCtx results false = Option.some
      { ctx := Option.some reqCtx, err := Option.some b,
        step := (ParalStep.Fail (s.SetState State.processing) (Option.some reqCtx)
          (Option.some b)).1,
        trace := Event.subscribe ::
          (ParalStep.Fail (s.SetState State.processing) (Option.some reqCtx)
            (Option.some b)).2 } := by
  simp only [ParalStep.Run, hagg, hrun]
  rfl

/-- The success branch: no cancellation recorded, no aggregated error, and a non-nil
combined context `c`. -/
theorem ParalStep_Run_success_branch (s : ParalStep) (reqCtx : Context)
    (results : List ChildResult) (c : Context)
    (herrs : aggregateErrors (s.SetState State.processing) results = Option.none)
    (hctxs : aggregateContexts (s.SetState State.processing) reqCtx results
      = Option.some c) :
    ParalStep.Run s reqCtx results false = Option.some
      { ctx := Option.some c, err := Option.none,
        step := (ParalStep.Success (s.SetState State.processing) (Option.some c)).1,
        trace := Event.subscribe ::
          (ParalStep.Success (s.SetState State.processing) (Option.some c)).2 } := by
  simp only [ParalStep.Run, herrs, hctxs]
  rfl

/-- With the default error handler, the error aggregator returns a non-nil error on one
or more child errors, and combining that error alone returns it again. -/
theorem aggregateErrors_default (s : ParalStep) (results : List ChildResult)
    (hdef : s.errorHandler = NewErrorHandler Option.none)
    (hne : sentErrors results ≠ []) :
    ∃ a, aggregateErrors (s.SetState State.processing) results = Option.some a
      ∧ (s.SetState State.processing).errorHandler [Option.some a] = Option.some a
      ∧ Option.some a = NewErrorHandler Option.none ((sentErrors results).map Option.some) := by
  obtain ⟨e, rest, hs⟩ := List.exists_cons_of_ne_nil hne
  obtain ⟨a, ha, _⟩ := defaultErrorHandler_message e rest
  refine ⟨a, ?_, ?_, ?_⟩
  · rw [aggregateErrors_SetState, aggregateErrors_cons s results e rest hs, hdef]
    exact ha
  · show s.errorHandler _ = _
    rw [hdef]
    rfl
  · rw [hs]
    exact ha.symm

/-- When every child of a non-empty list returns a nil error, the context aggregator
applies the context handler to the starting context followed by the children's
contexts. -/
theorem aggregateContexts_of_all_nil (s : ParalStep) (reqCtx : Context)
    (results : List ChildResult) (hne : results ≠ [])
    (hall : ∀ x ∈ results, x.err = Option.none) :
    aggregateContexts (s.SetState State.processing) reqCtx results
      = s.contextHandler (Option.some reqCtx :: results.map (fun x => x.ctx)) := by
  simp only [aggregateContexts, sentContexts_of_all_nil results hall]
  cases results with
  | nil => exact absurd rfl hne
  | cons x xs => rfl

/-- Gluing the separator to the cancellation message. -/
theorem cancel_message_join (j n : String) :
    j ++ "." ++ ("step " ++ n ++ " canceled") = j ++ ".step " ++ n ++ " canceled" := by
  have h : "." ++ "step " = ".step " := by decide
  rw [← h]
  simp only [String.append_assoc]

/-- The slice `errs` of the cancellation branch, entry by entry: the cancellation error
alone when no child returned an error or the aggregate of the child errors is nil, the
aggregate followed by the cancellation error otherwise; the Rollback of the step
returns no error and adds no entry. -/
theorem cancel_errs_explicit (s : ParalStep) (reqCtx : Context) (results : List ChildResult) :
    appendIfSet (aggregateErrors s results) ++ [Option.some (cancelError s)]
        ++ appendIfSet (GenericStep.Rollback s (Option.some reqCtx)).2
      = (match sentErrors results with
         | [] => [Option.some (cancelError s)]
         | e :: es =>
           (match s.errorHandler ((e :: es).map Option.some) with
            | Option.none => [Option.some (cancelError s)]
            | Option.some a => [Option.some a, Option.some (cancelError s)])) := by
  cases hs : sentErrors results with
  | nil =>
    rw [aggregateErrors_nil s results hs]
    rfl
  | cons e es =>
    rw [aggregateErrors_cons s results e es hs]
    show _ = (match s.errorHandler ((e :: es).map Option.some) with
              | Option.none => [Option.some (cancelError s)]
              | Option.some a => [Option.some a, Option.some (cancelError s)])
    cases s.errorHandler ((e :: es).map Option.some) <;> rfl

/-- C2. Cancellation overrides plain failure in `ParalStep.Run`: when the cancellation
has been recorded at the completion check, whatever the children returned, Run returns
the input context with `errorHandler(errs)`. The slice `errs` is the one-element list
of the cancellation error, whose message is "step Name canceled", when no child
returned an error or the aggregate `errorHandler(child errors)` is nil; otherwise it is
the two-element list of that aggregate followed by the cancellation error. The step's
own Rollback returns a nil error, so no third entry is added. Neither `Fail` nor
`Success` runs. With the default combiner and child errors `e1..ek`, `k >= 1`, the
message of the returned error is the joined child messages followed by
".step Name canceled". -/
theorem ParalStep_Run_cancel_overrides (s : ParalStep) (reqCtx : Context)
    (results : List ChildResult) :
    ∃ r, ParalStep.Run s reqCtx results true = Option.some r
      ∧ r.ctx = Option.some reqCtx
      ∧ r.err = s.errorHandler
          (match sentErrors results with
           | [] => [Option.some (GoError.errorsNew ("step " ++ s.info.Name ++ " canceled"))]
           | e :: es =>
             (match s.errorHandler ((e :: es).map Option.some) with
              | Option.none =>
                [Option.some (GoError.errorsNew ("step " ++ s.info.Name ++ " canceled"))]
              | Option.some a =>
                [Option.some a,
                 Option.some (GoError.errorsNew ("step " ++ s.info.Name ++ " canceled"))]))
      ∧ (GenericStep.Rollback s (Option.some reqCtx)).2 = Option.none
      ∧ r.trace = [Event.subscribe, Event.stepRollback (Option.some reqCtx)]
      ∧ r.step = s.SetState State.processing
      ∧ (s.errorHandler = NewErrorHandler Option.none → sentErrors results ≠ [] →
          ∃ e, r.err = Option.some e
            ∧ e.Error = joinedMessage (sentErrors results) ++ ".step " ++ s.info.Name
                ++ " canceled") := by
  have hrun : ParalStep.Run s reqCtx results true = Option.some
      { ctx := Option.some reqCtx,
        err := s.errorHandler
          (appendIfSet (aggregateErrors s results) ++ [Option.some (cancelError s)]
            ++ appendIfSet (GenericStep.Rollback s (Option.some reqCtx)).2),
        step := s.SetState State.processing,
        trace := [Event.subscribe, Event.stepRollback (Option.some reqCtx)] } := rfl
  refine ⟨_, hrun, rfl, ?_, rfl, rfl, rfl, ?_⟩
  · show s.errorHandler _ = _
    rw [cancel_errs_explicit s reqCtx results]
    rfl
  · intro hdef hne
    obtain ⟨e, rest, hs⟩ := List.exists_cons_of_ne_nil hne
    obtain ⟨a, ha, hmsg⟩ := defaultErrorHandler_message e rest
    have hagg : aggregateErrors s results = Option.some a := by
      rw [aggregateErrors_cons s results e rest hs, hdef]
      exact ha
    refine ⟨errorfDot a.Error (cancelError s).Error, ?_, ?_⟩
    · show s.errorHandler
          (appendIfSet (aggregateErrors s results) ++ [Option.some (cancelError s)]
            ++ appendIfSet Option.none) = _
      rw [hagg, hdef]
      rfl
    · show a.Error ++ "." ++ ("step " ++ s.info.Name ++ " canceled") = _
      rw [hmsg, hs]
      exact cancel_message_join _ _

/-- Witness of C2: under a recorded cancellation of step "deploy", children failing with
"disk full" then "timeout" give the joined message with the default combiner; a
combiner that reports the number of entries it is given sees one entry when every
child succeeds, and two entries when some child fails. -/
theorem ParalStep_Run_cancel_overrides_witness :
    (∃ r, ParalStep.Run stepDeploy ctx0 resultsMixed true = Option.some r
      ∧ r.err.map GoError.Error = Option.some "disk full.timeout.step deploy canceled")
    ∧ (∃ r, ParalStep.Run stepDeployCounting ctx0 resultsAllSucceed true = Option.some r
      ∧ r.err = Option.some (GoError.ext 0 "1"))
    ∧ (∃ r, ParalStep.Run stepDeployCounting ctx0 resultsMixed true = Option.some r
      ∧ r.err = Option.some (GoError.ext 0 "2")) := by
  refine ⟨?_, ?_, ?_⟩
  · obtain ⟨r, hr, _, _, _, _, _, hmsg⟩ :=
      ParalStep_Run_cancel_overrides stepDeploy ctx0 resultsMixed
    obtain ⟨e, he, hm⟩ := hmsg rfl (by decide)
    refine ⟨r, hr, ?_⟩
    rw [he]
    show Option.some e.Error = _
    rw [hm]
    decide
  · obtain ⟨r, hr, _, herr, _⟩ :=
      ParalStep_Run_cancel_overrides stepDeployCounting ctx0 resultsAllSucceed
    refine ⟨r, hr, ?_⟩
    rw [herr]
    decide
  · obtain ⟨r, hr, _, herr, _⟩ :=
      ParalStep_Run_cancel_overrides stepDeployCounting ctx0 resultsMixed
    refine ⟨r, hr, ?_⟩
    rw [herr]
    decide

/-- C3. A `ParalStep` run with the default error combiner, no cancellation recorded and
at least one child error: Run returns the input context and a non-nil error equal to
the combiner applied once to the children's errors in arrival order; for a single
failing child with error `e` it is `e` itself; the fail callback, when set, is invoked
exactly once, with that error, and the success callback is not invoked. -/
theorem ParalStep_Run_child_failure (s : ParalStep) (reqCtx : Context)
    (results : List ChildResult)
    (hdef : s.errorHandler = NewErrorHandler Option.none)
    (hne : sentErrors results ≠ []) :
    ∃ r, ParalStep.Run s reqCtx results false = Option.some r
      ∧ r.ctx = Option.some reqCtx
      ∧ r.err = NewErrorHandler Option.none ((sentErrors results).map Option.some)
      ∧ r.err ≠ Option.none
      ∧ (∀ e, sentErrors results = [e] → r.err = Option.some e)
      ∧ r.trace = Event.subscribe ::
          (match s.failFn with
           | Option.none => []
           | Option.some _ => [Event.stepFailFn (Option.some reqCtx) r.err]) := by
  obtain ⟨a, hagg, hrun, hval⟩ := aggregateErrors_default s results hdef hne
  have hfail : (s.SetState State.processing).failFn = s.failFn := rfl
  refine ⟨_, ParalStep_Run_fail_branch s reqCtx results a a hagg hrun, rfl, hval, ?_, ?_, ?_⟩
  · simp
  · intro e1 h1
    rw [hval, h1]
    rfl
  · simp only [ParalStep.Fail, hfail]
    cases s.failFn <;> rfl

/-- Witness of C3: two children succeed and one fails with "disk full"; the fail
callback is set. -/
theorem ParalStep_Run_child_failure_witness :
    ∃ r, ParalStep.Run stepDeployObserved ctx0 resultsOneFails false = Option.some r
      ∧ r.ctx = Option.some ctx0
      ∧ r.err = Option.some errDisk
      ∧ r.trace = [Event.subscribe,
          Event.stepFailFn (Option.some ctx0) (Option.some errDisk)] := by
  obtain ⟨r, hr, hctx, _, _, hsingle, htrace⟩ :=
    ParalStep_Run_child_failure stepDeployObserved ctx0 resultsOneFails rfl (by decide)
  refine ⟨r, hr, hctx, hsingle errDisk rfl, ?_⟩
  rw [htrace, hsingle errDisk rfl]
  rfl

/-- C4. A `ParalStep` with at least one child, no cancellation recorded, every child
returning without error and the context combiner returning a non-nil context: Run
returns a nil error and the context `contextHandler([start, c1, ..., cn])`; that
context is passed to the success callback, which when set is invoked exactly once.
With the default context combiner the combined context is the starting context. -/
theorem ParalStep_Run_all_succeed (s : ParalStep) (reqCtx : Context)
    (results : List ChildResult) (c : Context)
    (hne : results ≠ [])
    (hall : ∀ x ∈ results, x.err = Option.none)
    (hctx : s.contextHandler (Option.some reqCtx :: results.map (fun x => x.ctx))
      = Option.some c) :
    ∃ r, ParalStep.Run s reqCtx results false = Option.some r
      ∧ r.err = Option.none
      ∧ r.ctx = s.contextHandler (Option.some reqCtx :: results.map (fun x => x.ctx))
      ∧ r.trace = Event.subscribe ::
          (match s.successFn with
           | Option.none => []
           | Option.some _ => [Event.stepSuccessFn r.ctx])
      ∧ (s.contextHandler = NewContextHandler Option.none → r.ctx = Option.some reqCtx) := by
  have herrs : aggregateErrors (s.SetState State.processing) results = Option.none :=
    aggregateErrors_nil _ results (sentErrors_of_all_nil results hall)
  have hctxs : aggregateContexts (s.SetState State.processing) reqCtx results
      = Option.some c := by
    rw [aggregateContexts_of_all_nil s reqCtx results hne hall]
    exact hctx
  have hsucc : (s.SetState State.processing).successFn = s.successFn := rfl
  refine ⟨_, ParalStep_Run_success_branch s reqCtx results c herrs hctxs, rfl, hctx.symm,
    ?_, ?_⟩
  · simp only [ParalStep.Success, hsucc]
    cases s.successFn <;> rfl
  · intro hdef
    rw [hdef] at hctx
    exact hctx.symm

/-- Witness of C4: three children succeed with contexts of their own; the success
callback is set and the default context combiner is used. -/
theorem ParalStep_Run_all_succeed_witness :
    ∃ r, ParalStep.Run stepDeployObserved ctx0 resultsAllSucceed false = Option.some r
      ∧ r.err = Option.none
      ∧ r.ctx = Option.some ctx0
      ∧ r.trace = [Event.subscribe, Event.stepSuccessFn (Option.some ctx0)] := by
  obtain ⟨r, hr, herr, _, htrace, hdef⟩ :=
    ParalStep_Run_all_succeed stepDeployObserved ctx0 resultsAllSucceed ctx0
      (by decide) (by decide) rfl
  refine ⟨r, hr, herr, hdef rfl, ?_⟩
  rw [htrace, hdef rfl]
  rfl

/-- Counterexample to C5: the step "deploy" run from state None without cancellation
is left in state Processing, not Completed, when it has no child, when its three
children all succeed but a success callback is set, and when its three children all
succeed but its context handler returns nil; it is left in state Processing, not
Failed, when a child fails but a fail callback is set; and it is left in state
Completed, not Failed, when a child fails and its error handler drops the error. -/
theorem ParalStep_Run_state_counterexample :
    (ParalStep.Run stepDeploy ctx0 [] false).map (fun r => r.step.info.State)
        = Option.some State.processing
    ∧ (ParalStep.Run stepDeployObserved ctx0 resultsAllSucceed false).map
        (fun r => r.step.info.State) = Option.some State.processing
    ∧ (ParalStep.Run stepDeployNoContext ctx0 resultsAllSucceed false).map
        (fun r => r.step.info.State) = Option.some State.processing
    ∧ (ParalStep.Run stepDeployObserved ctx0 resultsOneFails false).map
        (fun r => r.step.info.State) = Option.some State.processing
    ∧ (ParalStep.Run stepDeployLenient ctx0 resultsOneFails false).map
        (fun r => r.step.info.State) = Option.some State.completed := by
  refine ⟨by decide, by decide, by decide, by decide, by decide⟩

/-- C5, amended. A `ParalStep` run without cancellation being recorded, in whatever
state it starts. If every child returned without error, there is at least one child
and the context combiner returns a non-nil context, Run returns and the state is then
Completed when no success callback is set, and what the success callback makes of
Processing when one is set. If some child returned an error and the error combiner is
the default one, Run returns and the state is then Failed when no fail callback is
set, and what the fail callback makes of Processing when one is set. -/
theorem ParalStep_Run_final_state (s : ParalStep) (reqCtx : Context)
    (results : List ChildResult) :
    (∀ c : Context, results ≠ [] → (∀ x ∈ results, x.err = Option.none) →
        s.contextHandler (Option.some reqCtx :: results.map (fun x => x.ctx))
          = Option.some c →
        ∃ r, ParalStep.Run s reqCtx results false = Option.some r
          ∧ r.step.info.State =
              (match s.successFn with
               | Option.none => State.completed
               | Option.some fn => fn (Option.some c) State.processing))
    ∧ ((∃ x ∈ results, x.err ≠ Option.none) →
        s.errorHandler = NewErrorHandler Option.none →
        ∃ r, ParalStep.Run s reqCtx results false = Option.some r
          ∧ r.step.info.State =
              (match s.failFn with
               | Option.none => State.failed
               | Option.some fn => fn (Option.some reqCtx) r.err State.processing)) := by
  constructor
  · intro c hne hall hctx
    have herrs : aggregateErrors (s.SetState State.processing) results = Option.none :=
      aggregateErrors_nil _ results (sentErrors_of_all_nil results hall)
    have hctxs : aggregateContexts (s.SetState State.processing) reqCtx results
        = Option.some c := by
      rw [aggregateContexts_of_all_nil s reqCtx results hne hall]
      exact hctx
    refine ⟨_, ParalStep_Run_success_branch s reqCtx results c herrs hctxs, ?_⟩
    obtain ⟨info, ch, eh, sf, ff⟩ := s
    cases sf <;> rfl
  · intro hsome herr
    obtain ⟨a, hagg, hrun, _⟩ :=
      aggregateErrors_default s results herr (sentErrors_ne_nil results hsome)
    refine ⟨_, ParalStep_Run_fail_branch s reqCtx results a a hagg hrun, ?_⟩
    obtain ⟨info, ch, eh, sf, ff⟩ := s
    cases ff <;> rfl

/-- Witness of C5, amended: the step "deploy" ends Completed with three succeeding
children, and ends Failed when one of three children fails although a success callback
is set. -/
theorem ParalStep_Run_final_state_witness :
    (∃ r, ParalStep.Run stepDeploy ctx0 resultsAllSucceed false = Option.some r
      ∧ r.step.info.State = State.completed)
    ∧ (∃ r, ParalStep.Run (stepDeploy.SetSuccessFn (Option.some (fun _ st => st))) ctx0
          resultsOneFails false = Option.some r
      ∧ r.step.info.State = State.failed) := by
  constructor
  · obtain ⟨r, hr, hst⟩ :=
      (ParalStep_Run_final_state stepDeploy ctx0 resultsAllSucceed).1 ctx0
        (by decide) (by decide) rfl
    exact ⟨r, hr, hst⟩
  · obtain ⟨r, hr, hst⟩ :=
      (ParalStep_Run_final_state (stepDeploy.SetSuccessFn (Option.some (fun _ st => st)))
        ctx0 resultsOneFails).2 (by decide) rfl
    exact ⟨r, hr, hst⟩

/-- C6, the code at the failing input: the step "deploy" with a fail callback set, run
with the cancellation recorded while its three children succeed. Run returns the error
"step deploy canceled" after subscribing and rolling back only: the fail callback is
not invoked and the state stays Processing. -/
theorem ParalStep_Run_cancel_skips_Fail :
    (ParalStep.Run stepDeployObserved ctx0 resultsAllSucceed true).map
        (fun r => (r.err, r.trace, r.step.info.State))
      = Option.some
          (Option.some (GoError.errorsNew "step deploy canceled"),
           [Event.subscribe, Event.stepRollback (Option.some ctx0)],
           State.processing) := by
  decide

/-! ## Task.Run -/

/-- The default handler skips a nil rollback outcome: on `[err, nil]` it returns `err`. -/
theorem defaultErrorHandler_pair_nil (err : Option GoError) :
    defaultErrorHandler [err, Option.none] = err := by
  cases err <;> rfl

/-- On a task with a context and a root step that returns, `Task.Run` returns: it calls
`Success` or `Fail`, by the error computed, on a task that has the callbacks and error
handler of `t` and the root step as its Run left it. -/
theorem Task_Run_returns (t : Task) (root : Context → Option StepOutcome) (ctxDone : Bool)
    (parent : Context) (o : StepOutcome)
    (hctx : t.ctx = Option.some parent)
    (hroot : root (Context.withCancel parent) = Option.some o) :
    ∃ t2 : Task, t2.successFn = t.successFn ∧ t2.failFn = t.failFn
      ∧ t2.TaskStep = o.info
      ∧ Task.Run t root ctxDone = Option.some
          { err := t.runErr o ctxDone,
            task := (match t.runErr o ctxDone with
                     | Option.none => t2.Success
                     | Option.some e => t2.Fail (Option.some e)).1,
            trace := (match t.runErr o ctxDone with
                      | Option.none => t2.Success
                      | Option.some e => t2.Fail (Option.some e)).2 } := by
  cases ctxDone with
  | false =>
    refine ⟨{ t with ctx := o.ctx, TaskStep := o.info }, rfl, rfl, rfl, ?_⟩
    simp only [Task.Run, hctx, hroot]
    rfl
  | true =>
    refine ⟨{ t with ctx := Option.some (Context.withCancel parent), TaskStep := o.info },
      rfl, rfl, rfl, ?_⟩
    simp only [Task.Run, hctx, hroot]
    rfl

/-- The calls of `Task.Success` depend on the success callback only, which it keeps. -/
theorem Task_Success_trace (t : Task) :
    t.Success.2 =
        (match t.successFn with
         | Option.none => [Event.busClose]
         | Option.some fn => [Event.taskSuccessFn fn.tag, Event.busClose])
      ∧ t.Success.1.successFn = t.successFn ∧ t.Success.1.failFn = t.failFn := by
  obtain ⟨n, ts, c, eh, sf, ff⟩ := t
  cases sf <;> exact ⟨rfl, rfl, rfl⟩

/-- The calls of `Task.Fail` depend on the fail callback and the error only. -/
theorem Task_Fail_trace (t : Task) (err : Option GoError) :
    (t.Fail err).2 =
        (match t.failFn with
         | Option.none => [Event.busClose]
         | Option.some fn => [Event.taskFailFn fn.tag err, Event.busClose])
      ∧ (t.Fail err).1.successFn = t.successFn ∧ (t.Fail err).1.failFn = t.failFn := by
  obtain ⟨n, ts, c, eh, sf, ff⟩ := t
  cases ff <;> exact ⟨rfl, rfl, rfl⟩

/-- The state of the root step after `Task.Success`. -/
theorem Task_Success_state (t : Task) :
    t.Success.1.TaskStep.State =
      (match t.successFn with
       | Option.none => t.TaskStep.State
       | Option.some fn => fn.effect t.TaskStep.State) := by
  obtain ⟨n, ts, c, eh, sf, ff⟩ := t
  cases sf <;> rfl

/-- The state of the root step after `Task.Fail`. -/
theorem Task_Fail_state (t : Task) (err : Option GoError) :
    (t.Fail err).1.TaskStep.State =
      (match t.failFn with
       | Option.none => t.TaskStep.State
       | Option.some fn => fn.effect err t.TaskStep.State) := by
  obtain ⟨n, ts, c, eh, sf, ff⟩ := t
  cases ff <;> rfl

/-- C7. One call of `Task.Run` on a task with a context, whatever the root step
returned and whether or not cancellation is observed: it takes the path `Task.Success`
when the returned error is nil and the path `Task.Fail` otherwise; the matching
callback is invoked exactly once when it is set, the other callback is never invoked;
the event bus is closed exactly once, after the callback. -/
theorem Task_Run_one_path (t : Task) (root : Context → Option StepOutcome) (ctxDone : Bool)
    (parent : Context) (o : StepOutcome)
    (hctx : t.ctx = Option.some parent)
    (hroot : root (Context.withCancel parent) = Option.some o) :
    ∃ r, Task.Run t root ctxDone = Option.some r
      ∧ r.trace =
          (match r.err with
           | Option.none => r.task.Success.2
           | Option.some e => (r.task.Fail (Option.some e)).2)
      ∧ r.trace =
          (match r.err with
           | Option.none =>
             (match t.successFn with
              | Option.none => [Event.busClose]
              | Option.some fn => [Event.taskSuccessFn fn.tag, Event.busClose])
           | Option.some e =>
             (match t.failFn with
              | Option.none => [Event.busClose]
              | Option.some fn =>
                [Event.taskFailFn fn.tag (Option.some e), Event.busClose]))
      ∧ r.trace.count Event.busClose = 1
      ∧ r.trace.getLast? = Option.some Event.busClose := by
  obtain ⟨t2, hs, hf, _, hrun⟩ := Task_Run_returns t root ctxDone parent o hctx hroot
  refine ⟨_, hrun, ?_⟩
  show _ ∧ _ ∧ _ ∧ _
  cases t.runErr o ctxDone with
  | none =>
    obtain ⟨h1, h2, _⟩ := Task_Success_trace t2
    obtain ⟨h3, _, _⟩ := Task_Success_trace t2.Success.1
    simp only [h3, h2, h1, hs]
    cases t.successFn <;> simp
  | some e =>
    obtain ⟨h1, _, h2⟩ := Task_Fail_trace t2 (Option.some e)
    obtain ⟨h3, _, _⟩ := Task_Fail_trace (t2.Fail (Option.some e)).1 (Option.some e)
    simp only [h3, h2, h1, hf]
    cases t.failFn <;> simp

/-- Witness of C7: a task whose root step "deploy" fails with "disk full". -/
theorem Task_Run_one_path_witness :
    ∃ r, Task.Run (taskFor "deploy") (ParalStep.outcome stepDeploy resultsOneFails false) false
        = Option.some r
      ∧ r.trace = [Event.taskFailFn 2 (Option.some errDisk), Event.busClose] := by
  obtain ⟨r, hr, _, htrace, _, _⟩ :=
    Task_Run_one_path (taskFor "deploy") (ParalStep.outcome stepDeploy resultsOneFails false)
      false ctx0 outcomeOneFails rfl (by decide)
  have herr : (Task.Run (taskFor "deploy")
      (ParalStep.outcome stepDeploy resultsOneFails false) false).map (fun x => x.err)
      = Option.some (Option.some errDisk) := by decide
  rw [hr] at herr
  have herr2 : r.err = Option.some errDisk := by
    injection herr
  refine ⟨r, hr, ?_⟩
  rw [htrace, herr2]
  rfl

/-- C8. `Task.Run` on a task with a context returns the root step's error combined
with the task-level rollback outcome: `errorHandler([rootErr, rollbackErr])`, with
`rollbackErr` always nil, when the context is observed cancelled as the root step
returns, and `rootErr` otherwise. With the default error combiner it returns exactly
the root step's error on both paths, so it returns nil if and only if the root step
returned a nil error. -/
theorem Task_Run_returned_error (t : Task) (root : Context → Option StepOutcome)
    (ctxDone : Bool) (parent : Context) (o : StepOutcome)
    (hctx : t.ctx = Option.some parent)
    (hroot : root (Context.withCancel parent) = Option.some o) :
    ∃ r, Task.Run t root ctxDone = Option.some r
      ∧ r.err = (if ctxDone then t.errorHandler [o.err, t.Rollback] else o.err)
      ∧ t.Rollback = Option.none
      ∧ (t.errorHandler = NewErrorHandler Option.none →
          r.err = o.err ∧ (r.err = Option.none ↔ o.err = Option.none)) := by
  obtain ⟨t2, _, _, _, hrun⟩ := Task_Run_returns t root ctxDone parent o hctx hroot
  refine ⟨_, hrun, rfl, rfl, ?_⟩
  intro hdef
  have hsame : t.runErr o ctxDone = o.err := by
    unfold Task.runErr
    rw [hdef]
    cases ctxDone
    · rfl
    · exact defaultErrorHandler_pair_nil o.err
  exact ⟨hsame, by rw [show (_ : Option GoError) = o.err from hsame]⟩

/-- Witness of C8: a task with the default combiner observes the cancellation as its
root step "deploy" returns the cancellation error. -/
theorem Task_Run_returned_error_witness :
    ∃ r, Task.Run (taskFor "deploy") (ParalStep.outcome stepDeploy resultsAllSucceed true) true
        = Option.some r
      ∧ r.err = Option.some (GoError.errorsNew "step deploy canceled") := by
  obtain ⟨r, hr, _, _, hdef⟩ :=
    Task_Run_returned_error (taskFor "deploy")
      (ParalStep.outcome stepDeploy resultsAllSucceed true) true ctx0 outcomeCanceled
      rfl (by decide)
  exact ⟨r, hr, (hdef rfl).1⟩

/-- The outcome of a `ParalStep` root whose Run takes the success branch. -/
theorem ParalStep_outcome_success (s : ParalStep) (reqCtx : Context)
    (results : List ChildResult) (c : Context)
    (hsucc : s.successFn = Option.none)
    (hne : results ≠ [])
    (hall : ∀ x ∈ results, x.err = Option.none)
    (hctx : s.contextHandler (Option.some reqCtx :: results.map (fun x => x.ctx))
      = Option.some c) :
    ∃ o, ParalStep.outcome s results false reqCtx = Option.some o
      ∧ o.err = Option.none ∧ o.info.State = State.completed := by
  have herrs : aggregateErrors (s.SetState State.processing) results = Option.none :=
    aggregateErrors_nil _ results (sentErrors_of_all_nil results hall)
  have hctxs : aggregateContexts (s.SetState State.processing) reqCtx results
      = Option.some c := by
    rw [aggregateContexts_of_all_nil s reqCtx results hne hall]
    exact hctx
  have hrun := ParalStep_Run_success_branch s reqCtx results c herrs hctxs
  have hout : ParalStep.outcome s results false reqCtx = Option.some
      { ctx := Option.some c, err := Option.none,
        info := (ParalStep.Success (s.SetState State.processing) (Option.some c)).1.GetInfo } := by
    unfold ParalStep.outcome
    rw [hrun]
    rfl
  refine ⟨_, hout, rfl, ?_⟩
  obtain ⟨info, ch, eh, sf, ff⟩ := s
  cases hsucc
  rfl

/-- The outcome of a `ParalStep` root whose Run takes the plain-failure branch. -/
theorem ParalStep_outcome_failure (s : ParalStep) (reqCtx : Context)
    (results : List ChildResult)
    (hfail : s.failFn = Option.none)
    (herr : s.errorHandler = NewErrorHandler Option.none)
    (hsome : ∃ x ∈ results, x.err ≠ Option.none) :
    ∃ o a, ParalStep.outcome s results false reqCtx = Option.some o
      ∧ o.err = Option.some a ∧ o.info.State = State.failed := by
  obtain ⟨a, hagg, hrun, _⟩ :=
    aggregateErrors_default s results herr (sentErrors_ne_nil results hsome)
  have hrun2 := ParalStep_Run_fail_branch s reqCtx results a a hagg hrun
  have hout : ParalStep.outcome s results false reqCtx = Option.some
      { ctx := Option.some reqCtx, err := Option.some a,
        info := (ParalStep.Fail (s.SetState State.processing) (Option.some reqCtx)
          (Option.some a)).1.GetInfo } := by
    unfold ParalStep.outcome
    rw [hrun2]
    rfl
  refine ⟨_, a, hout, rfl, ?_⟩
  obtain ⟨info, ch, eh, sf, ff⟩ := s
  cases hfail
  rfl

/-- Counterexample to C9, each task starting with its root step in state None. A generic
root step: nil error, `CheckStatus` Created. The step "deploy" with a fail callback
that leaves the state alone, one child failing: error, Processing. The plain step
"deploy", one child failing, under a task whose fail callback puts the root step back
in state None: error, Created. The plain step "deploy", one child failing, under a
task that observes the cancellation and whose error handler drops every error: nil
error, Failed. The plain step "deploy" without children: nil error, Processing. The
step "deploy" with a context handler returning nil, all children succeeding: nil
error, Processing. The step "deploy" with a success callback that leaves the state
alone, all children succeeding: nil error, Processing. The step "deploy" with an error
handler dropping every error, all children failing: nil error, Processing. -/
theorem Task_CheckStatus_counterexample :
    (Task.Run (taskFor "noop") stepNoop.outcome false).map
        (fun r => (r.err, r.task.CheckStatus))
      = Option.some (Option.none, State.created)
    ∧ (Task.Run (taskFor "deploy")
        (ParalStep.outcome stepDeployObserved resultsOneFails false) false).map
        (fun r => (r.err, r.task.CheckStatus))
      = Option.some (Option.some errDisk, State.processing)
    ∧ (Task.Run (taskResetting "deploy")
        (ParalStep.outcome stepDeploy resultsOneFails false) false).map
        (fun r => (r.err, r.task.CheckStatus))
      = Option.some (Option.some errDisk, State.created)
    ∧ (Task.Run (taskLenient "deploy")
        (ParalStep.outcome stepDeploy resultsOneFails false) true).map
        (fun r => (r.err, r.task.CheckStatus))
      = Option.some (Option.none, State.failed)
    ∧ (Task.Run (taskFor "deploy") (ParalStep.outcome stepDeploy [] false) false).map
        (fun r => (r.err, r.task.CheckStatus))
      = Option.some (Option.none, State.processing)
    ∧ (Task.Run (taskFor "deploy")
        (ParalStep.outcome stepDeployNoContext resultsAllSucceed false) false).map
        (fun r => (r.err, r.task.CheckStatus))
      = Option.some (Option.none, State.processing)
    ∧ (Task.Run (taskFor "deploy")
        (ParalStep.outcome stepDeployObserved resultsAllSucceed false) false).map
        (fun r => (r.err, r.task.CheckStatus))
      = Option.some (Option.none, State.processing)
    ∧ (Task.Run (taskFor "deploy")
        (ParalStep.outcome stepDeployLenient resultsAllFail false) false).map
        (fun r => (r.err, r.task.CheckStatus))
      = Option.some (Option.none, State.processing) := by
  refine ⟨by decide, by decide, by decide, by decide, by decide, by decide, by decide,
    by decide⟩

/-- C9, amended. For every task with a context and every root step whose Run returns,
`Task.Run` returns and `CheckStatus` then reports Created if the root step's state is
None and the root step's state otherwise, that state being the one the root step's Run
left, changed by the task callback that was invoked if one is set: `Task.Run` itself
sets no state. For a task with the default error combiner whose root step is a
`ParalStep` run without its recording a cancellation: if every child returned without
error, there is at least one child, the step's context combiner returns a non-nil
context, the step has no success callback and the task's success callback, if set,
leaves the root step's state as it is, then `Task.Run` returns nil and `CheckStatus`
is Completed; if some child returned an error, the step uses the default error
combiner and has no fail callback, and the task's fail callback, if set, leaves the
root step's state as it is, then `Task.Run` returns a non-nil error and `CheckStatus`
is Failed. -/
theorem Task_CheckStatus_agrees (t : Task) (ctxDone : Bool) (parent : Context)
    (hctx : t.ctx = Option.some parent) :
    (∀ (root : Context → Option StepOutcome) (o : StepOutcome),
        root (Context.withCancel parent) = Option.some o →
        ∃ r, Task.Run t root ctxDone = Option.some r
          ∧ r.task.CheckStatus =
              (if (match r.err with
                   | Option.none =>
                     (match t.successFn with
                      | Option.none => o.info.State
                      | Option.some fn => fn.effect o.info.State)
                   | Option.some e =>
                     (match t.failFn with
                      | Option.none => o.info.State
                      | Option.some fn => fn.effect (Option.some e) o.info.State))
                  = State.none
               then State.created
               else (match r.err with
                     | Option.none =>
                       (match t.successFn with
                        | Option.none => o.info.State
                        | Option.some fn => fn.effect o.info.State)
                     | Option.some e =>
                       (match t.failFn with
                        | Option.none => o.info.State
                        | Option.some fn => fn.effect (Option.some e) o.info.State))))
    ∧ (∀ (s : ParalStep) (results : List ChildResult) (c : Context),
        t.errorHandler = NewErrorHandler Option.none →
        (∀ fn, t.successFn = Option.some fn → ∀ st, fn.effect st = st) →
        s.successFn = Option.none →
        results ≠ [] →
        (∀ x ∈ results, x.err = Option.none) →
        s.contextHandler
            (Option.some (Context.withCancel parent) :: results.map (fun x => x.ctx))
          = Option.some c →
        ∃ r, Task.Run t (ParalStep.outcome s results false) ctxDone = Option.some r
          ∧ r.err = Option.none ∧ r.task.CheckStatus = State.completed)
    ∧ (∀ (s : ParalStep) (results : List ChildResult),
        t.errorHandler = NewErrorHandler Option.none →
        (∀ fn, t.failFn = Option.some fn → ∀ e st, fn.effect e st = st) →
        s.failFn = Option.none →
        s.errorHandler = NewErrorHandler Option.none →
        (∃ x ∈ results, x.err ≠ Option.none) →
        ∃ r, Task.Run t (ParalStep.outcome s results false) ctxDone = Option.some r
          ∧ r.err ≠ Option.none ∧ r.task.CheckStatus = State.failed) := by
  have mirror : ∀ (root : Context → Option StepOutcome) (o : StepOutcome),
      root (Context.withCancel parent) = Option.some o →
      ∃ r, Task.Run t root ctxDone = Option.some r
        ∧ r.err = t.runErr o ctxDone
        ∧ r.task.TaskStep.State =
            (match r.err with
             | Option.none =>
               (match t.successFn with
                | Option.none => o.info.State
                | Option.some fn => fn.effect o.info.State)
             | Option.some e =>
               (match t.failFn with
                | Option.none => o.info.State
                | Option.some fn => fn.effect (Option.some e) o.info.State)) := by
    intro root o hroot
    obtain ⟨t2, hs, hf, hinfo, hrun⟩ := Task_Run_returns t root ctxDone parent o hctx hroot
    refine ⟨_, hrun, rfl, ?_⟩
    show (match t.runErr o ctxDone with
          | Option.none => t2.Success
          | Option.some e => t2.Fail (Option.some e)).1.TaskStep.State
        = (match t.runErr o ctxDone with
           | Option.none =>
             (match t.successFn with
              | Option.none => o.info.State
              | Option.some fn => fn.effect o.info.State)
           | Option.some e =>
             (match t.failFn with
              | Option.none => o.info.State
              | Option.some fn => fn.effect (Option.some e) o.info.State))
    cases t.runErr o ctxDone with
    | none =>
      show t2.Success.1.TaskStep.State = _
      rw [Task_Success_state, hs, hinfo]
    | some e =>
      show (t2.Fail (Option.some e)).1.TaskStep.State = _
      rw [Task_Fail_state, hf, hinfo]
  have hdefault : ∀ o : StepOutcome, t.errorHandler = NewErrorHandler Option.none →
      t.runErr o ctxDone = o.err := by
    intro o hdef
    unfold Task.runErr
    rw [hdef]
    cases ctxDone
    · rfl
    · exact defaultErrorHandler_pair_nil o.err
  refine ⟨?_, ?_, ?_⟩
  · intro root o hroot
    obtain ⟨r, hr, _, hst⟩ := mirror root o hroot
    refine ⟨r, hr, ?_⟩
    rw [← hst]
    rfl
  · intro s results c hdef hinert hsucc hne hall hc
    obtain ⟨o, ho, hoerr, hostate⟩ :=
      ParalStep_outcome_success s (Context.withCancel parent) results c hsucc hne hall hc
    obtain ⟨r, hr, herr, hst⟩ := mirror (ParalStep.outcome s results false) o ho
    have hnil : r.err = Option.none := by
      rw [herr, hdefault o hdef, hoerr]
    refine ⟨r, hr, hnil, ?_⟩
    rw [hnil] at hst
    have hstate : r.task.TaskStep.State = State.completed := by
      rw [hst, hostate]
      cases hfn : t.successFn with
      | none => rfl
      | some fn => exact hinert fn hfn State.completed
    simp only [Task.CheckStatus, hstate]
    rfl
  · intro s results hdef hinert hfail hserr hsome
    obtain ⟨o, a, ho, hoerr, hostate⟩ :=
      ParalStep_outcome_failure s (Context.withCancel parent) results hfail hserr hsome
    obtain ⟨r, hr, herr, hst⟩ := mirror (ParalStep.outcome s results false) o ho
    have hsomeerr : r.err = Option.some a := by
      rw [herr, hdefault o hdef, hoerr]
    refine ⟨r, hr, by rw [hsomeerr]; simp, ?_⟩
    rw [hsomeerr] at hst
    have hstate : r.task.TaskStep.State = State.failed := by
      rw [hst, hostate]
      cases hfn : t.failFn with
      | none => rfl
      | some fn => exact hinert fn hfn (Option.some a) State.failed
    simp only [Task.CheckStatus, hstate]
    rfl

/-- Witness of C9, amended: a task whose root is a generic step left in state None
reports Created; a task whose root step "deploy" has three succeeding children returns
nil and reports Completed; a task whose root step "deploy" has one failing child
returns an error and reports Failed. -/
theorem Task_CheckStatus_agrees_witness :
    (∃ r, Task.Run (taskFor "noop") stepNoop.outcome false = Option.some r
      ∧ r.task.CheckStatus = State.created)
    ∧ (∃ r, Task.Run (taskFor "deploy") (ParalStep.outcome stepDeploy resultsAllSucceed false)
          true = Option.some r
      ∧ r.err = Option.none ∧ r.task.CheckStatus = State.completed)
    ∧ (∃ r, Task.Run (taskFor "deploy") (ParalStep.outcome stepDeploy resultsOneFails false)
          false = Option.some r
      ∧ r.err ≠ Option.none ∧ r.task.CheckStatus = State.failed) := by
  refine ⟨?_, ?_, ?_⟩
  · obtain ⟨r, hr, hst⟩ :=
      (Task_CheckStatus_agrees (taskFor "noop") false ctx0 rfl).1 stepNoop.outcome
        { ctx := Option.some (Context.withCancel ctx0), err := Option.none,
          info := NewStepInfo "noop" } rfl
    have herr : (Task.Run (taskFor "noop") stepNoop.outcome false).map (fun x => x.err)
        = Option.some Option.none := by decide
    rw [hr] at herr
    have herr2 : r.err = Option.none := by
      injection herr
    refine ⟨r, hr, ?_⟩
    rw [hst, herr2]
    rfl
  · exact (Task_CheckStatus_agrees (taskFor "deploy") true ctx0 rfl).2.1 stepDeploy
      resultsAllSucceed (Context.withCancel ctx0) rfl
      (fun fn hfn st => by
        have h : fn = { tag := 1, effect := fun st => st } := by
          injection hfn with h
          exact h.symm
        rw [h])
      rfl (by decide) (by decide) rfl
  · exact (Task_CheckStatus_agrees (taskFor "deploy") false ctx0 rfl).2.2 stepDeploy
      resultsOneFails rfl
      (fun fn hfn e st => by
        have h : fn = { tag := 2, effect := fun _ st => st } := by
          injection hfn with h
          exact h.symm
        rw [h])
      rfl rfl (by decide)

/-! ## FindSteps -/

/-- With `deepest` set, the loop of `FindSteps` returns the search of the first element
satisfying `pred`, or the result so far followed by the step when there is none. -/
theorem FindSteps_loop_deepest (step : Step) (pred : StepPredicate) (rest res : List Step) :
    FindSteps.loop step pred true rest res
      = (match rest.find? pred with
         | Option.some c => FindSteps c pred true
         | Option.none => res ++ [step]) := by
  induction rest with
  | nil => simp [FindSteps.loop]
  | cons t more ih =>
    rw [FindSteps.loop]
    cases ht : pred t with
    | true => simp [List.find?_cons, ht]
    | false => simp [List.find?_cons, ht, ih]

/-- A step that does not satisfy `pred` gives the empty result. -/
theorem FindSteps_of_not_pred (step : Step) (pred : StepPredicate) (deepest : Bool)
    (h : pred step = false) : FindSteps step pred deepest = [] := by
  cases step with
  | mk kind info steps =>
    unfold FindSteps
    simp [h]

/-- A step satisfying `pred` that is not a `SeqStep` gives itself. -/
theorem FindSteps_of_not_seq (step : Step) (pred : StepPredicate) (deepest : Bool)
    (h : pred step = true) (hk : step.kind ≠ StepKind.seq) :
    FindSteps step pred deepest = [step] := by
  cases step with
  | mk kind info steps =>
    cases kind with
    | seq => exact absurd rfl hk
    | paral =>
      unfold FindSteps
      simp [h]
    | generic =>
      unfold FindSteps
      simp [h]
    | other =>
      unfold FindSteps
      simp [h]

/-- A `SeqStep` satisfying `pred`, searched with `deepest` set, gives the search of its
first child satisfying `pred`, or itself when it has none. -/
theorem FindSteps_of_seq (step : Step) (pred : StepPredicate)
    (h : pred step = true) (hk : step.kind = StepKind.seq) :
    FindSteps step pred true
      = (match step.children.find? pred with
         | Option.some c => FindSteps c pred true
         | Option.none => [step]) := by
  cases step with
  | mk kind info steps =>
    cases kind with
    | seq =>
      cases steps with
      | none =>
        rw [FindSteps]
        simp [h, Step.children, Step.Steps]
      | some l =>
        rw [FindSteps]
        simp only [h, Bool.not_true, Bool.false_eq_true, if_false]
        rw [FindSteps_loop_deepest]
        simp [Step.children, Step.Steps]
    | paral => exact absurd hk (by simp [Step.kind])
    | generic => exact absurd hk (by simp [Step.kind])
    | other => exact absurd hk (by simp [Step.kind])

/-- A child is smaller than its parent. -/
theorem sizeOf_child_lt (s c : Step) (h : c ∈ s.children) : sizeOf c < sizeOf s := by
  cases s with
  | mk kind info steps =>
    cases steps with
    | none => simp [Step.children, Step.Steps] at h
    | some l =>
      have h1 : c ∈ l := by simpa [Step.children, Step.Steps] using h
      have h2 := List.sizeOf_lt_of_mem h1
      simp only [Step.mk.sizeOf_spec, Option.some.sizeOf_spec]
      omega

/-- The descent from a step stops at one step only. -/
theorem DescendsTo_unique (pred : StepPredicate) (s r1 r2 : Step)
    (h1 : DescendsTo pred s r1) (h2 : DescendsTo pred s r2) : r1 = r2 := by
  induction h1 with
  | stop s hs =>
    cases h2 with
    | stop _ _ => rfl
    | down _ c _ hk hf _ =>
      rcases hs with hs | hs
      · exact absurd hk hs
      · rw [hs] at hf
        exact Option.noConfusion hf
  | down s c r hk hf _ ih =>
    cases h2 with
    | stop _ hs =>
      rcases hs with hs | hs
      · exact absurd hk hs
      · rw [hs] at hf
        exact Option.noConfusion hf
    | down _ c2 _ _ hf2 hd2 =>
      rw [hf] at hf2
      injection hf2 with hcc
      subst hcc
      exact ih hd2

/-- The search with `deepest` set, on a step satisfying `pred`, by induction on the
size of the tree. -/
theorem FindSteps_deepest_aux (pred : StepPredicate) :
    ∀ (n : Nat) (step : Step), sizeOf step ≤ n → pred step = true →
      ∃ r, FindSteps step pred true = [r] ∧ pred r = true ∧ Step.Within r step
        ∧ DescendsTo pred step r := by
  intro n
  induction n with
  | zero =>
    intro step hsz _
    cases step with
    | mk kind info steps =>
      simp only [Step.mk.sizeOf_spec] at hsz
      omega
  | succ n ih =>
    intro step hsz hp
    by_cases hk : step.kind = StepKind.seq
    · rw [FindSteps_of_seq step pred hp hk]
      cases hf : step.children.find? pred with
      | none =>
        exact ⟨step, rfl, hp, Step.Within.self step, DescendsTo.stop step (Or.inr hf)⟩
      | some c =>
        have hc : pred c = true := List.find?_some hf
        have hm : c ∈ step.children := List.mem_of_find?_eq_some hf
        have hlt := sizeOf_child_lt step c hm
        obtain ⟨r, h1, h2, h3, h4⟩ := ih c (by omega) hc
        exact ⟨r, h1, h2, Step.Within.child r c step hm h3,
          DescendsTo.down step c r hk hf h4⟩
    · exact ⟨step, FindSteps_of_not_seq step pred true hp hk, hp, Step.Within.self step,
        DescendsTo.stop step (Or.inl hk)⟩

/-- C10. For every finite step tree and every predicate, `FindSteps(step, pred, true)`,
and so `GetActiveSteps(step, true)`, returns the empty result when `pred(step)` is
false, and otherwise exactly one step, which satisfies `pred` and is `step` itself or
one of its descendants: the one step at which the descent into the first child
satisfying `pred` stops for a `SeqStep`, and `step` itself for any other kind. -/
theorem FindSteps_deepest_single (step : Step) (pred : StepPredicate) :
    (pred step = false → FindSteps step pred true = [])
    ∧ (pred step = true →
        ∃ r, FindSteps step pred true = [r] ∧ pred r = true ∧ Step.Within r step
          ∧ DescendsTo pred step r
          ∧ (∀ r2, DescendsTo pred step r2 → r2 = r)
          ∧ (step.kind ≠ StepKind.seq → r = step))
    ∧ GetActiveSteps step true = FindSteps step isActive true := by
  refine ⟨FindSteps_of_not_pred step pred true, ?_, rfl⟩
  intro hp
  obtain ⟨r, h1, h2, h3, h4⟩ := FindSteps_deepest_aux pred (sizeOf step) step (le_refl _) hp
  refine ⟨r, h1, h2, h3, h4, fun r2 hr2 => DescendsTo_unique pred step r2 r hr2 h4, ?_⟩
  intro hk
  have hself := FindSteps_of_not_seq step pred true hp hk
  rw [hself] at h1
  injection h1 with h1
  exact h1.symm

/-- Witness of C10: in the nested tree the active steps searched deepest are the one
processing leaf "b2" of the inner sequential step. -/
theorem FindSteps_deepest_single_witness :
    ∃ r, GetActiveSteps treeNested true = [r]
      ∧ r = leafStep State.processing "b2"
      ∧ isActive r = true := by
  obtain ⟨r, h1, h2, _, _, _, _⟩ :=
    (FindSteps_deepest_single treeNested isActive).2.1 (by decide)
  have hval : FindSteps treeNested isActive true = [leafStep State.processing "b2"] := by
    rfl
  refine ⟨r, h1, ?_, h2⟩
  rw [hval] at h1
  injection h1 with h1
  exact h1.symm

end task
